import Mathlib

/-!
Verification of the OpenDash documentation server core
(`docs/serve_docs.py`, with the same diagram transformer duplicated in
`docs/debug_mermaid.py`).

All text is embedded as `List Char`.  Pure functions of the source are
translated directly; the HTTP handler is embedded as a function over an
explicit environment (`Env`) supplying the filesystem, the markdown
renderer and the availability flag, returning the response that the
handler would send.
-/

namespace OpenDashDocs

/-! ## Generic list-of-characters machinery -/

/-- Match a literal character sequence `p` at the head of `s`; on success
return the remainder of `s` after the literal. -/
def dropLit : List Char → List Char → Option (List Char)
  | [], s => some s
  | _ :: _, [] => none
  | p :: ps, c :: cs => if p = c then dropLit ps cs else none

theorem dropLit_append_self (p s : List Char) : dropLit p (p ++ s) = some s := by
  induction p with
  | nil => rfl
  | cons c cs ih => simp [dropLit, ih]

theorem dropLit_some_eq {p s r : List Char} (h : dropLit p s = some r) : s = p ++ r := by
  induction p generalizing s with
  | nil =>
    simp only [dropLit, Option.some.injEq] at h
    simpa using h
  | cons c cs ih =>
    cases s with
    | nil => simp [dropLit] at h
    | cons d ds =>
      by_cases hc : c = d
      · subst hc
        simp only [dropLit, if_pos rfl] at h
        simpa using ih h
      · simp [dropLit, hc] at h

theorem dropLit_none_append {p a : List Char} (t : List Char)
    (hlen : p.length ≤ a.length) (h : dropLit p a = none) :
    dropLit p (a ++ t) = none := by
  induction p generalizing a with
  | nil => simp [dropLit] at h
  | cons c cs ih =>
    cases a with
    | nil => simp at hlen
    | cons d ds =>
      by_cases hc : c = d
      · subst hc
        simp only [dropLit, if_pos rfl] at h ⊢
        exact ih (by simpa using hlen) h
      · simp [dropLit, hc]

/-- First occurrence of the literal `pat` in `s`, returned as the text
before it and the text after it.  This is the deterministic core of the
leftmost regex match used by `process_mermaid_blocks`. -/
def splitFirst (pat : List Char) : List Char → Option (List Char × List Char)
  | [] => none
  | c :: cs =>
    match dropLit pat (c :: cs) with
    | some rest => some ([], rest)
    | none =>
      match splitFirst pat cs with
      | some (a, b) => some (c :: a, b)
      | none => none

theorem splitFirst_some_eq {pat s a b : List Char}
    (h : splitFirst pat s = some (a, b)) : s = a ++ pat ++ b := by
  induction s generalizing a with
  | nil => simp [splitFirst] at h
  | cons c cs ih =>
    rw [splitFirst] at h
    cases hd : dropLit pat (c :: cs) with
    | some rest =>
      rw [hd] at h
      simp only [Option.some.injEq, Prod.mk.injEq] at h
      obtain ⟨ha, hb⟩ := h
      subst ha; subst hb
      simpa using dropLit_some_eq hd
    | none =>
      rw [hd] at h
      cases hs : splitFirst pat cs with
      | some p =>
        obtain ⟨a2, b2⟩ := p
        rw [hs] at h
        simp only [Option.some.injEq, Prod.mk.injEq] at h
        obtain ⟨ha, hb⟩ := h
        subst hb
        rw [← ha]
        simpa using ih hs
      | none => rw [hs] at h; simp at h

theorem splitFirst_cons_notMem {q : Char} {qs a b : List Char}
    (hmem : q ∉ a) : splitFirst (q :: qs) (a ++ (q :: qs) ++ b) = some (a, b) := by
  induction a with
  | nil =>
    have : ([] : List Char) ++ (q :: qs) ++ b = q :: (qs ++ b) := by simp
    rw [this, splitFirst]
    have hd : dropLit (q :: qs) (q :: (qs ++ b)) = some b := by
      simpa using dropLit_append_self (q :: qs) b
    rw [hd]
  | cons x a' ih =>
    have hx : q ≠ x := fun hqx => hmem (hqx ▸ List.mem_cons_self x a')
    have hmem' : q ∉ a' := fun hmm => hmem (List.mem_cons_of_mem x hmm)
    have : (x :: a') ++ (q :: qs) ++ b = x :: (a' ++ (q :: qs) ++ b) := by simp
    rw [this, splitFirst]
    have hd : dropLit (q :: qs) (x :: (a' ++ (q :: qs) ++ b)) = none := by
      simp [dropLit, hx]
    rw [hd, ih hmem']

/-! ## The diagram block transformer (`process_mermaid_blocks`)

The Python code substitutes, with DOTALL semantics, every leftmost match
of the regex

  `<pre[^>]*><code class="language-mermaid">(.*?)</code></pre>`

by `<div class="mermaid">` ++ html.unescape(group 1) ++ `</div>`.
Because `[^>]*` cannot cross a `>` and `(.*?)` is non-greedy, a match
attempt at a given start position is deterministic: the literal `<pre`,
then everything up to the first `>`, then the literal code-open tag,
then everything up to the first `</code></pre>`. -/

def litPre : List Char := "<pre".data

def litCodeOpen : List Char := "<code class=\"language-mermaid\">".data

def litClose : List Char := "</code></pre>".data

def divOpen : List Char := "<div class=\"mermaid\">".data

def divClose : List Char := "</div>".data

/-- Attempt to match the mermaid code-block regex at the start of `s`.
On success return the captured group and the remainder after the match. -/
def tryMatchAt (s : List Char) : Option (List Char × List Char) :=
  (dropLit litPre s).bind fun s1 =>
    (splitFirst ['>'] s1).bind fun p =>
      (dropLit litCodeOpen p.2).bind fun s3 =>
        splitFirst litClose s3

theorem tryMatchAt_some_decomp {s b r : List Char}
    (h : tryMatchAt s = some (b, r)) :
    ∃ attrs, s = litPre ++ attrs ++ '>' :: (litCodeOpen ++ b ++ litClose ++ r) := by
  rw [tryMatchAt] at h
  cases h1 : dropLit litPre s with
  | none => rw [h1] at h; simp at h
  | some s1 =>
    rw [h1, Option.some_bind] at h
    cases h2 : splitFirst ['>'] s1 with
    | none => rw [h2] at h; simp at h
    | some p2 =>
      obtain ⟨attrs, s2⟩ := p2
      rw [h2, Option.some_bind] at h
      cases h3 : dropLit litCodeOpen s2 with
      | none => rw [h3] at h; simp at h
      | some s3 =>
        rw [h3, Option.some_bind] at h
        refine ⟨attrs, ?_⟩
        have e1 := dropLit_some_eq h1
        have e2 := splitFirst_some_eq h2
        have e3 := dropLit_some_eq h3
        have e4 := splitFirst_some_eq h
        subst e1
        rw [e2, e3, e4]
        simp

theorem tryMatchAt_some_len {s b r : List Char}
    (h : tryMatchAt s = some (b, r)) : r.length < s.length := by
  obtain ⟨attrs, he⟩ := tryMatchAt_some_decomp h
  rw [he]
  simp [litPre, litCodeOpen, litClose]
  omega

/-- Matching the regex at the start of a well-formed span succeeds with
the span body as the captured group, whatever follows. -/
theorem tryMatchAt_span {attrs body post : List Char}
    (hattrs : '>' ∉ attrs) (hbody : '<' ∉ body) :
    tryMatchAt (litPre ++ attrs ++ '>' :: (litCodeOpen ++ body ++ litClose) ++ post)
      = some (body, post) := by
  rw [tryMatchAt]
  have h1 : dropLit litPre (litPre ++ attrs ++ '>' :: (litCodeOpen ++ body ++ litClose) ++ post)
      = some (attrs ++ '>' :: (litCodeOpen ++ body ++ litClose) ++ post) := by
    have := dropLit_append_self litPre (attrs ++ '>' :: (litCodeOpen ++ body ++ litClose) ++ post)
    simpa [List.append_assoc] using this
  rw [h1, Option.some_bind]
  have h2 : splitFirst ['>'] (attrs ++ '>' :: (litCodeOpen ++ body ++ litClose) ++ post)
      = some (attrs, litCodeOpen ++ body ++ litClose ++ post) := by
    have := @splitFirst_cons_notMem '>' [] attrs (litCodeOpen ++ body ++ litClose ++ post) hattrs
    simpa [List.append_assoc] using this
  rw [h2, Option.some_bind]
  have h3 : dropLit litCodeOpen (litCodeOpen ++ body ++ litClose ++ post)
      = some (body ++ litClose ++ post) := by
    have := dropLit_append_self litCodeOpen (body ++ litClose ++ post)
    simpa [List.append_assoc] using this
  rw [h3, Option.some_bind]
  have h4 : splitFirst litClose (body ++ litClose ++ post) = some (body, post) := by
    have hcl : litClose = '<' :: "/code></pre>".data := by rfl
    rw [hcl]
    exact splitFirst_cons_notMem hbody
  simpa [List.append_assoc] using h4

theorem tryMatchAt_none_of_dropLit {s : List Char}
    (h : dropLit litPre s = none) : tryMatchAt s = none := by
  rw [tryMatchAt, h, Option.none_bind]

/-- Model of the HTML entity decoding performed by `html.unescape` on the
content of a code block.  Modelled from the spec: the Python standard
library decoder is external to the repository; the spec only requires it
to undo "the escaping introduced by the render pipeline code-block
encoder", which emits the named entities amp, lt, gt (and quot). -/
def unescapeHtml : List Char → List Char
  | [] => []
  | '&' :: 'a' :: 'm' :: 'p' :: ';' :: t => '&' :: unescapeHtml t
  | '&' :: 'l' :: 't' :: ';' :: t => '<' :: unescapeHtml t
  | '&' :: 'g' :: 't' :: ';' :: t => '>' :: unescapeHtml t
  | '&' :: 'q' :: 'u' :: 'o' :: 't' :: ';' :: t => '"' :: unescapeHtml t
  | c :: cs => c :: unescapeHtml cs

/-- Model of the HTML entity escaping applied by the markdown code-block
encoder to code content (ampersand, less-than, greater-than). -/
def escapeHtml : List Char → List Char
  | [] => []
  | c :: cs =>
    (if c = '&' then "&amp;".data
     else if c = '<' then "&lt;".data
     else if c = '>' then "&gt;".data
     else [c]) ++ escapeHtml cs

theorem escapeHtml_not_lt (b : List Char) : '<' ∉ escapeHtml b := by
  induction b with
  | nil => simp [escapeHtml]
  | cons c cs ih =>
    rw [escapeHtml]
    intro hmem
    rcases List.mem_append.mp hmem with hl | hr
    · by_cases h1 : c = '&'
      · simp [h1] at hl
      · by_cases h2 : c = '<'
        · simp [h1, h2] at hl
        · by_cases h3 : c = '>'
          · simp [h1, h2, h3] at hl
          · simp [h1, h2, h3] at hl; exact h2 hl.symm
    · exact ih hr

theorem unescapeHtml_escapeHtml (b : List Char) : unescapeHtml (escapeHtml b) = b := by
  induction b with
  | nil => rfl
  | cons c cs ih =>
    by_cases h1 : c = '&'
    · subst h1
      show unescapeHtml ("&amp;".data ++ escapeHtml cs) = '&' :: cs
      show unescapeHtml ('&' :: 'a' :: 'm' :: 'p' :: ';' :: escapeHtml cs) = '&' :: cs
      rw [unescapeHtml, ih]
    · by_cases h2 : c = '<'
      · subst h2
        show unescapeHtml ("&lt;".data ++ escapeHtml cs) = '<' :: cs
        show unescapeHtml ('&' :: 'l' :: 't' :: ';' :: escapeHtml cs) = '<' :: cs
        rw [unescapeHtml, ih]
      · by_cases h3 : c = '>'
        · subst h3
          show unescapeHtml ("&gt;".data ++ escapeHtml cs) = '>' :: cs
          show unescapeHtml ('&' :: 'g' :: 't' :: ';' :: escapeHtml cs) = '>' :: cs
          rw [unescapeHtml, ih]
        · rw [escapeHtml, if_neg h1, if_neg h2, if_neg h3]
          show unescapeHtml (c :: escapeHtml cs) = c :: cs
          rw [unescapeHtml.eq_def]
          split
          · simp_all
          · exfalso; simp_all
          · exfalso; simp_all
          · exfalso; simp_all
          · exfalso; simp_all
          · simp_all

/-- Fuel-driven left-to-right regex substitution scan: at each position
try the mermaid code-block pattern; on a match emit the replacement and
continue after the match, otherwise keep the character and move on.
The fuel argument only bounds the recursion; `processMermaidBlocks`
supplies enough fuel for it never to run out. -/
def processAux : Nat → List Char → List Char
  | 0, s => s
  | _ + 1, [] => []
  | fuel + 1, c :: cs =>
    (tryMatchAt (c :: cs)).elim (c :: processAux fuel cs)
      (fun p => (divOpen ++ unescapeHtml p.1 ++ divClose) ++ processAux fuel p.2)

/-- Translation of `process_mermaid_blocks`: replace every match of
  `<pre[^>]*><code class="language-mermaid">(.*?)</code></pre>`
(DOTALL, leftmost, non-overlapping) by a mermaid div holding the
entity-decoded captured group. -/
def processMermaidBlocks (s : List Char) : List Char := processAux s.length s

/-- Number of matches the substitution scan performs; zero exactly when
the fragment contains no mermaid code-block span. -/
def countAux : Nat → List Char → Nat
  | 0, _ => 0
  | _ + 1, [] => 0
  | fuel + 1, c :: cs =>
    (tryMatchAt (c :: cs)).elim (countAux fuel cs) (fun p => countAux fuel p.2 + 1)

def countMatches (s : List Char) : Nat := countAux s.length s

theorem processAux_nil (n : Nat) : processAux n [] = [] := by
  cases n <;> rfl

theorem countAux_nil (n : Nat) : countAux n [] = 0 := by
  cases n <;> rfl

theorem processAux_fuel {n : Nat} : ∀ {m : Nat} {s : List Char},
    s.length ≤ n → s.length ≤ m → processAux n s = processAux m s := by
  induction n with
  | zero =>
    intro m s hn _
    have : s = [] := List.length_eq_zero.mp (Nat.le_zero.mp hn)
    subst this
    rw [processAux_nil, processAux_nil]
  | succ n ih =>
    intro m s hn hm
    cases s with
    | nil => rw [processAux_nil, processAux_nil]
    | cons c cs =>
      cases m with
      | zero => simp at hm
      | succ m' =>
        rw [processAux, processAux]
        cases ht : tryMatchAt (c :: cs) with
        | some p =>
          obtain ⟨body, rest⟩ := p
          have hlt := tryMatchAt_some_len ht
          simp only [List.length_cons] at hn hm hlt
          simp only [Option.elim_some]
          rw [ih (Nat.le_of_lt_succ (Nat.lt_of_lt_of_le hlt hn))
              (Nat.le_of_lt_succ (Nat.lt_of_lt_of_le hlt hm))]
        | none =>
          simp only [List.length_cons, Nat.succ_le_succ_iff] at hn hm
          simp only [Option.elim_none]
          rw [ih hn hm]

theorem countAux_fuel {n : Nat} : ∀ {m : Nat} {s : List Char},
    s.length ≤ n → s.length ≤ m → countAux n s = countAux m s := by
  induction n with
  | zero =>
    intro m s hn _
    have : s = [] := List.length_eq_zero.mp (Nat.le_zero.mp hn)
    subst this
    rw [countAux_nil, countAux_nil]
  | succ n ih =>
    intro m s hn hm
    cases s with
    | nil => rw [countAux_nil, countAux_nil]
    | cons c cs =>
      cases m with
      | zero => simp at hm
      | succ m' =>
        rw [countAux, countAux]
        cases ht : tryMatchAt (c :: cs) with
        | some p =>
          obtain ⟨body, rest⟩ := p
          have hlt := tryMatchAt_some_len ht
          simp only [List.length_cons] at hn hm hlt
          simp only [Option.elim_some]
          rw [ih (Nat.le_of_lt_succ (Nat.lt_of_lt_of_le hlt hn))
              (Nat.le_of_lt_succ (Nat.lt_of_lt_of_le hlt hm))]
        | none =>
          simp only [List.length_cons, Nat.succ_le_succ_iff] at hn hm
          simp only [Option.elim_none]
          rw [ih hn hm]

theorem process_cons_match {c : Char} {cs body rest : List Char}
    (h : tryMatchAt (c :: cs) = some (body, rest)) :
    processMermaidBlocks (c :: cs)
      = (divOpen ++ unescapeHtml body ++ divClose) ++ processMermaidBlocks rest := by
  have hlt := tryMatchAt_some_len h
  simp only [List.length_cons] at hlt
  rw [processMermaidBlocks, List.length_cons, processAux, h, processMermaidBlocks]
  simp only [Option.elim_some]
  rw [processAux_fuel (Nat.le_of_lt_succ hlt) (Nat.le_refl _)]

theorem process_cons_nomatch {c : Char} {cs : List Char}
    (h : tryMatchAt (c :: cs) = none) :
    processMermaidBlocks (c :: cs) = c :: processMermaidBlocks cs := by
  rw [processMermaidBlocks, List.length_cons, processAux, h, processMermaidBlocks]
  simp only [Option.elim_none]

theorem process_match {s body rest : List Char}
    (h : tryMatchAt s = some (body, rest)) :
    processMermaidBlocks s
      = (divOpen ++ unescapeHtml body ++ divClose) ++ processMermaidBlocks rest := by
  cases s with
  | nil =>
    have hnil : tryMatchAt [] = none := rfl
    rw [hnil] at h; cases h
  | cons c cs => exact process_cons_match h

theorem count_cons_match {c : Char} {cs body rest : List Char}
    (h : tryMatchAt (c :: cs) = some (body, rest)) :
    countMatches (c :: cs) = countMatches rest + 1 := by
  have hlt := tryMatchAt_some_len h
  simp only [List.length_cons] at hlt
  rw [countMatches, List.length_cons, countAux, h, countMatches]
  simp only [Option.elim_some]
  rw [countAux_fuel (Nat.le_of_lt_succ hlt) (Nat.le_refl _)]

theorem count_cons_nomatch {c : Char} {cs : List Char}
    (h : tryMatchAt (c :: cs) = none) :
    countMatches (c :: cs) = countMatches cs := by
  rw [countMatches, List.length_cons, countAux, h, countMatches]
  simp only [Option.elim_none]

/-- A fragment in which the scan finds no match is left unchanged. -/
theorem process_of_count_zero : ∀ {s : List Char},
    countMatches s = 0 → processMermaidBlocks s = s := by
  have main : ∀ n s, List.length s ≤ n → countMatches s = 0 → processMermaidBlocks s = s := by
    intro n
    induction n with
    | zero =>
      intro s hn _
      have : s = [] := List.length_eq_zero.mp (Nat.le_zero.mp hn)
      subst this
      rfl
    | succ n ih =>
      intro s hn hc
      cases s with
      | nil => rfl
      | cons c cs =>
        cases ht : tryMatchAt (c :: cs) with
        | some p =>
          obtain ⟨body, rest⟩ := p
          rw [count_cons_match ht] at hc
          simp at hc
        | none =>
          rw [process_cons_nomatch ht]
          rw [count_cons_nomatch ht] at hc
          simp only [List.length_cons, Nat.succ_le_succ_iff] at hn
          rw [ih cs hn hc]
  intro s hc
  exact main s.length s (Nat.le_refl _) hc

/-- The full mermaid code-block span as the renderer emits it: an opening
pre tag with arbitrary attribute text (no closing angle inside), the
code-open tag, the escaped body, and the closing tags. -/
def mkSpan (attrs body : List Char) : List Char :=
  litPre ++ attrs ++ '>' :: (litCodeOpen ++ body ++ litClose)

/-- The replacement emitted for a span with (already decoded) body. -/
def mkDiv (body : List Char) : List Char := divOpen ++ body ++ divClose

/-- Occurrence test for a literal sequence inside a fragment, used to
state that a region contains no potential match start. -/
def containsSeq (pat : List Char) : List Char → Bool
  | [] => (dropLit pat []).isSome
  | c :: cs => (dropLit pat (c :: cs)).isSome || containsSeq pat cs

theorem process_prepend : ∀ (pre : List Char) {attrs E post : List Char},
    containsSeq litPre (pre ++ "<pr".data) = false →
    '>' ∉ attrs → '<' ∉ E →
    processMermaidBlocks (pre ++ mkSpan attrs E ++ post)
      = pre ++ mkDiv (unescapeHtml E) ++ processMermaidBlocks post := by
  intro pre
  induction pre with
  | nil =>
    intro attrs E post _ hattrs hE
    have hm : tryMatchAt (mkSpan attrs E ++ post) = some (E, post) := by
      rw [mkSpan]
      have := @tryMatchAt_span attrs E post hattrs hE
      simpa [List.append_assoc] using this
    rw [List.nil_append, List.nil_append, process_match hm, mkDiv]
  | cons c pre' ih =>
    intro attrs E post hpre hattrs hE
    have hsplit : (dropLit litPre (c :: (pre' ++ "<pr".data))).isSome = false
        ∧ containsSeq litPre (pre' ++ "<pr".data) = false := by
      have : containsSeq litPre ((c :: pre') ++ "<pr".data)
          = ((dropLit litPre (c :: (pre' ++ "<pr".data))).isSome
              || containsSeq litPre (pre' ++ "<pr".data)) := by
        rw [List.cons_append, containsSeq]
      rw [this] at hpre
      exact ⟨by simpa using Bool.or_eq_false_iff.mp hpre |>.1,
             Bool.or_eq_false_iff.mp hpre |>.2⟩
    have hd0 : dropLit litPre (c :: (pre' ++ "<pr".data)) = none := by
      cases hdd : dropLit litPre (c :: (pre' ++ "<pr".data)) with
      | none => rfl
      | some r => rw [hdd] at hsplit; simp at hsplit
    have hre : (c :: pre') ++ mkSpan attrs E ++ post
        = (c :: (pre' ++ "<pr".data))
            ++ ('e' :: (attrs ++ '>' :: (litCodeOpen ++ E ++ litClose) ++ post)) := by
      simp [mkSpan, litPre, List.append_assoc]
    have hnone : tryMatchAt ((c :: pre') ++ mkSpan attrs E ++ post) = none := by
      rw [hre]
      apply tryMatchAt_none_of_dropLit
      apply dropLit_none_append _ _ hd0
      simp [litPre]
    have hcons2 : (c :: pre') ++ mkSpan attrs E ++ post
        = c :: (pre' ++ mkSpan attrs E ++ post) := by simp [List.append_assoc]
    rw [hcons2] at hnone
    rw [hcons2, process_cons_nomatch hnone, ih hsplit.2 hattrs hE]
    simp

/-- C1: a fragment holding exactly one mermaid pre/code span whose body is
the HTML-entity-escaped encoding of a diagram body `B` (newlines allowed
in `B`) is returned with that span replaced by a mermaid div whose text
is `B` verbatim (the decoding undoes the escaping), every character
outside the span unchanged.  The side conditions say the surrounding text
offers no other match: no `<pre` start can occur before the span and the
scan finds no match after it. -/
theorem mermaid_single_span (pre attrs B post : List Char)
    (hattrs : '>' ∉ attrs)
    (hpre : containsSeq litPre (pre ++ "<pr".data) = false)
    (hpost : countMatches post = 0) :
    processMermaidBlocks (pre ++ mkSpan attrs (escapeHtml B) ++ post)
      = pre ++ mkDiv B ++ post := by
  rw [process_prepend pre hpre hattrs (escapeHtml_not_lt B), unescapeHtml_escapeHtml,
      process_of_count_zero hpost]

theorem mermaid_single_span_witness :
    processMermaidBlocks ("<p>x</p>".data
        ++ mkSpan " class=\"codehilite\"".data (escapeHtml "graph TD\nA-->B".data)
        ++ "<p>end</p>".data)
      = "<p>x</p>".data ++ mkDiv "graph TD\nA-->B".data ++ "<p>end</p>".data :=
  mermaid_single_span "<p>x</p>".data " class=\"codehilite\"".data "graph TD\nA-->B".data
    "<p>end</p>".data (by decide) (by decide) (by decide)

/-- C2: a fragment with two independent mermaid spans with escaped bodies
is transformed into exactly the two corresponding mermaid divs with all
surrounding text untouched, and a fragment with zero spans is returned
unchanged. -/
theorem mermaid_two_spans_and_noop :
    (∀ (pre1 attrs1 B1 mid attrs2 B2 post : List Char),
      '>' ∉ attrs1 → '>' ∉ attrs2 →
      containsSeq litPre (pre1 ++ "<pr".data) = false →
      containsSeq litPre (mid ++ "<pr".data) = false →
      countMatches post = 0 →
      processMermaidBlocks (pre1 ++ mkSpan attrs1 (escapeHtml B1)
          ++ (mid ++ mkSpan attrs2 (escapeHtml B2) ++ post))
        = pre1 ++ mkDiv B1 ++ (mid ++ mkDiv B2 ++ post))
    ∧ (∀ s : List Char, countMatches s = 0 → processMermaidBlocks s = s) := by
  constructor
  · intro pre1 attrs1 B1 mid attrs2 B2 post ha1 ha2 hp1 hp2 hpost
    rw [process_prepend pre1 hp1 ha1 (escapeHtml_not_lt B1), unescapeHtml_escapeHtml,
        process_prepend mid hp2 ha2 (escapeHtml_not_lt B2), unescapeHtml_escapeHtml,
        process_of_count_zero hpost]
  · intro s hs
    exact process_of_count_zero hs

theorem mermaid_two_spans_and_noop_witness :
    processMermaidBlocks ("<h1>t</h1>".data ++ mkSpan "".data (escapeHtml "A-->B".data)
        ++ ("<p>mid</p>".data ++ mkSpan " x=\"1\"".data (escapeHtml "C-->D\nD-->E".data)
            ++ "<p>tail</p>".data))
      = "<h1>t</h1>".data ++ mkDiv "A-->B".data
        ++ ("<p>mid</p>".data ++ mkDiv "C-->D\nD-->E".data ++ "<p>tail</p>".data) :=
  mermaid_two_spans_and_noop.1 "<h1>t</h1>".data "".data "A-->B".data "<p>mid</p>".data
    " x=\"1\"".data "C-->D\nD-->E".data "<p>tail</p>".data
    (by decide) (by decide) (by decide) (by decide) (by decide)

/-! ## The breadcrumb synthesizer (`generate_breadcrumb`) -/

/-- Model of the Python `str.strip` restricted to the slash character:
remove leading and trailing slashes. -/
def stripSlashes (s : List Char) : List Char :=
  ((s.dropWhile (fun c => c = '/')).reverse.dropWhile (fun c => c = '/')).reverse

/-- Model of the Python `str.split` on the slash separator: the empty
string yields one empty segment, and every slash starts a new segment. -/
def splitSlash : List Char → List (List Char)
  | [] => [[]]
  | c :: cs =>
    match splitSlash cs with
    | [] => [[]]
    | h :: t => if c = '/' then [] :: h :: t else (c :: h) :: t

/-- Model of the Python `str.title` word capitalization: an alphabetic
character is uppercased when the previous character is not alphabetic and
lowercased otherwise; other characters pass through and break words. -/
def pyTitleAux : Bool → List Char → List Char
  | _, [] => []
  | prev, c :: cs =>
    (if c.isAlpha then (if prev then c.toLower else c.toUpper) else c)
      :: pyTitleAux c.isAlpha cs

def pyTitle (s : List Char) : List Char := pyTitleAux false s

/-- Label derivation for one path segment: underscores become spaces,
then each word is capitalized. -/
def partLabel (p : List Char) : List Char :=
  pyTitle (p.map (fun c => if c = '_' then ' ' else c))

/-- One breadcrumb link entry. -/
def anchor (href label : List Char) : List Char :=
  "<a href=\"".data ++ href ++ "\">".data ++ label ++ "</a>".data

def homeAnchor : List Char := "<a href=\"/\">Home</a>".data

/-- The Python loop over the intermediate segments: the accumulated path
grows by a slash and the segment, and each iteration emits an anchor to
the accumulated path followed by a slash. -/
def crumbLoop (cur : List Char) : List (List Char) → List (List Char)
  | [] => []
  | p :: ps =>
    anchor ((cur ++ '/' :: p) ++ ['/']) (partLabel p) :: crumbLoop (cur ++ '/' :: p) ps

/-- Model of the Python `str.join`. -/
def joinSep (sep : List Char) : List (List Char) → List Char
  | [] => []
  | [x] => x
  | x :: y :: t => x ++ sep ++ joinSep sep (y :: t)

/-- Translation of `generate_breadcrumb`. -/
def generateBreadcrumb (path : List Char) : List Char :=
  let parts := splitSlash (stripSlashes path)
  let entries := homeAnchor :: crumbLoop [] parts.dropLast
  if 1 < entries.length then
    "<div class=\"breadcrumb\">".data ++ joinSep " > ".data entries ++ "</div>".data
  else []

/-- Accumulated path over the given segments: a slash before each. -/
def accPath : List (List Char) → List Char
  | [] => []
  | p :: ps => ('/' :: p) ++ accPath ps

theorem crumbLoop_length (ps : List (List Char)) : ∀ cur, (crumbLoop cur ps).length = ps.length := by
  induction ps with
  | nil => intro cur; rfl
  | cons p ps ih => intro cur; rw [crumbLoop, List.length_cons, List.length_cons, ih]

theorem crumbLoop_getD (ps : List (List Char)) : ∀ (cur : List Char) (i : Nat), i < ps.length →
    (crumbLoop cur ps).getD i [] =
      anchor ((cur ++ accPath (ps.take (i + 1))) ++ ['/']) (partLabel (ps.getD i [])) := by
  induction ps with
  | nil => intro cur i hi; simp at hi
  | cons p ps ih =>
    intro cur i hi
    cases i with
    | zero =>
      rw [crumbLoop]
      simp [accPath, List.take_succ_cons]
    | succ j =>
      rw [crumbLoop]
      simp only [List.getD_cons_succ]
      rw [ih (cur ++ '/' :: p) j (by simpa using Nat.lt_of_succ_lt_succ hi)]
      have hacc : accPath ((p :: ps).take (j + 1 + 1)) = ('/' :: p) ++ accPath (ps.take (j + 1)) := by
        rw [List.take_succ_cons, accPath]
      rw [hacc]
      simp [List.append_assoc]

/-- C3: for a resolved relative markdown path (no leading or trailing
slash, so stripping is the identity), `generate_breadcrumb` drops the
final path segment and, when at least one intermediate segment remains,
returns a breadcrumb container beginning with a Home entry linking to
the root followed by one entry per intermediate segment, whose label is
the segment with underscores replaced by spaces and each word
capitalized and whose link is the accumulated path followed by a slash;
when no intermediate segment remains it returns exactly the empty
string. -/
theorem breadcrumb_structure (path : List Char)
    (hres : stripSlashes path = path) :
    ((splitSlash path).dropLast = [] → generateBreadcrumb path = [])
    ∧ ((splitSlash path).dropLast ≠ [] →
        generateBreadcrumb path
          = "<div class=\"breadcrumb\">".data
              ++ joinSep " > ".data (homeAnchor :: crumbLoop [] ((splitSlash path).dropLast))
              ++ "</div>".data
        ∧ homeAnchor = anchor "/".data "Home".data
        ∧ (crumbLoop [] ((splitSlash path).dropLast)).length
            = ((splitSlash path).dropLast).length
        ∧ ∀ i, i < ((splitSlash path).dropLast).length →
            (crumbLoop [] ((splitSlash path).dropLast)).getD i []
              = anchor (accPath (((splitSlash path).dropLast).take (i + 1)) ++ ['/'])
                  (partLabel (((splitSlash path).dropLast).getD i []))) := by
  constructor
  · intro hnil
    rw [generateBreadcrumb, hres, hnil]
    rfl
  · intro hne
    refine ⟨?_, by rfl, crumbLoop_length _ [], ?_⟩
    · rw [generateBreadcrumb, hres]
      have hlen : 1 < (homeAnchor :: crumbLoop [] ((splitSlash path).dropLast)).length := by
        rw [List.length_cons, crumbLoop_length]
        have := List.length_pos.mpr hne
        omega
      simp only [hlen, if_true]
    · intro i hi
      have := crumbLoop_getD ((splitSlash path).dropLast) [] i hi
      simpa using this

theorem breadcrumb_structure_witness :
    generateBreadcrumb "architecture/index.md".data
      = "<div class=\"breadcrumb\">".data
          ++ joinSep " > ".data
              (homeAnchor :: crumbLoop [] ((splitSlash "architecture/index.md".data).dropLast))
          ++ "</div>".data :=
  (((breadcrumb_structure "architecture/index.md".data (by decide)).2 (by decide)).1)

/-! ## Title derivation (`serve_markdown`, lines 417-419) -/

/-- Model of the Python whitespace class used by `str.strip`. -/
def pyIsSpace (c : Char) : Bool :=
  c = ' ' || c = '\t' || c = '\n' || c = '\r' || c = '\x0b' || c = '\x0c'

/-- Model of `str.strip`: drop whitespace from both ends. -/
def pyStrip (s : List Char) : List Char :=
  ((s.dropWhile pyIsSpace).reverse.dropWhile pyIsSpace).reverse

/-- First line of the text, as selected by split on newline, index 0. -/
def firstLine (s : List Char) : List Char := s.takeWhile (fun c => c ≠ '\n')

/-- Translation of the title derivation: if the content starts with a
hash the title is the first line with leading hashes and surrounding
whitespace stripped, otherwise it is the fixed default. -/
def deriveTitle (content : List Char) : List Char :=
  if content.head? = some '#' then
    pyStrip ((firstLine content).dropWhile (fun c => c = '#'))
  else "Documentation".data

theorem firstLine_head (s : List Char) : (firstLine s).head? = some '#' ↔ s.head? = some '#' := by
  cases s with
  | nil => simp [firstLine]
  | cons c cs =>
    by_cases hc : c = '\n'
    · subst hc
      simp [firstLine, List.takeWhile]
    · rw [firstLine]
      have : List.takeWhile (fun c => c ≠ '\n') (c :: cs)
          = c :: List.takeWhile (fun c => c ≠ '\n') cs := by
        simp [List.takeWhile, hc]
      rw [this]
      simp

/-- C4: when the first line of the raw source begins with a heading
marker, the derived title is that line with all leading hash characters
and surrounding whitespace stripped; otherwise the derived title is the
fixed default `Documentation`. -/
theorem title_derivation (content : List Char) :
    ((firstLine content).head? = some '#' →
      deriveTitle content = pyStrip ((firstLine content).dropWhile (fun c => c = '#')))
    ∧ ((firstLine content).head? ≠ some '#' →
      deriveTitle content = "Documentation".data) := by
  constructor
  · intro hh
    rw [deriveTitle, if_pos ((firstLine_head content).mp hh)]
  · intro hh
    have : content.head? ≠ some '#' := fun hc => hh ((firstLine_head content).mpr hc)
    rw [deriveTitle, if_neg this]

theorem title_derivation_witness :
    deriveTitle "# Getting Started\nBody text".data
      = pyStrip ((firstLine "# Getting Started\nBody text".data).dropWhile (fun c => c = '#'))
    ∧ deriveTitle "# Getting Started\nBody text".data = "Getting Started".data :=
  ⟨(title_derivation "# Getting Started\nBody text".data).1 (by decide),
   by rw [(title_derivation "# Getting Started\nBody text".data).1 (by decide)]; decide⟩

/-! ## Request path normalization (`do_GET`, lines 358-370) -/

/-- Hexadecimal digit value, both cases accepted. -/
def pctHexVal (c : Char) : Option Nat :=
  if '0' ≤ c ∧ c ≤ '9' then some (c.toNat - '0'.toNat)
  else if 'a' ≤ c ∧ c ≤ 'f' then some (c.toNat - 'a'.toNat + 10)
  else if 'A' ≤ c ∧ c ≤ 'F' then some (c.toNat - 'A'.toNat + 10)
  else none

/-- Model of `urllib.parse.unquote` restricted to single-byte escapes: a
percent sign followed by two hex digits decodes to the corresponding
character; an invalid escape is kept literally and scanning resumes
after the percent sign. -/
def unquote : List Char → List Char
  | [] => []
  | '%' :: a :: b :: t =>
    match pctHexVal a, pctHexVal b with
    | some x, some y => Char.ofNat (16 * x + y) :: unquote t
    | _, _ => '%' :: unquote (a :: b :: t)
  | c :: cs => c :: unquote cs

/-- Translation of the normalization steps of `do_GET`: percent-decode,
truncate at the first question mark, truncate at the first hash, and map
the bare root to the index page. -/
def normalizePath (p : List Char) : List Char :=
  let p1 := unquote p
  let p2 := p1.takeWhile (fun c => c ≠ '?')
  let p3 := p2.takeWhile (fun c => c ≠ '#')
  if p3 = ['/'] then "/index.html".data else p3

theorem unquote_cons_ne {c : Char} (cs : List Char) (hc : c ≠ '%') :
    unquote (c :: cs) = c :: unquote cs := by
  rw [unquote.eq_def]
  split
  · simp_all
  · exfalso; simp_all
  · simp_all

theorem unquote_no_pct_append {a : List Char} (t : List Char)
    (h : '%' ∉ a) : unquote (a ++ t) = a ++ unquote t := by
  induction a with
  | nil => rfl
  | cons c a' ih =>
    have hc : c ≠ '%' := fun hcc => h (hcc ▸ List.mem_cons_self c a')
    have h' : '%' ∉ a' := fun hmm => h (List.mem_cons_of_mem c hmm)
    rw [List.cons_append, unquote_cons_ne _ hc, ih h']
    simp

theorem unquote_no_pct {a : List Char} (h : '%' ∉ a) : unquote a = a := by
  have := unquote_no_pct_append [] h
  simpa [unquote] using this

theorem takeWhile_all_append {q : Char → Bool} {a : List Char} (t : List Char)
    (h : ∀ c ∈ a, q c = true) : (a ++ t).takeWhile q = a ++ t.takeWhile q := by
  induction a with
  | nil => rfl
  | cons c a' ih =>
    have hc : q c = true := h c (List.mem_cons_self c a')
    have h' : ∀ c ∈ a', q c = true := fun c hm => h c (List.mem_cons_of_mem _ hm)
    simp [List.takeWhile_cons, hc, ih h']

theorem takeWhile_all {q : Char → Bool} {a : List Char}
    (h : ∀ c ∈ a, q c = true) : a.takeWhile q = a := by
  have := @takeWhile_all_append q a [] h
  simpa using this

theorem all_ne_of_notMem {x : Char} {a : List Char} (h : x ∉ a) :
    ∀ c ∈ a, (decide ¬(c = x)) = true := by
  intro c hm
  simp only [decide_eq_true_eq]
  intro hcc
  subst hcc
  exact h hm

/-- C5: the query string and the fragment never influence the normalized
path: appending a question mark or a hash and arbitrary text to a plain
path leaves the normalized result unchanged, the sample request with
both query and fragment normalizes exactly as its base, and the bare
root maps to the index page. -/
theorem normalize_query_fragment (base q f : List Char)
    (hp : '%' ∉ base) (hq : '?' ∉ base) (hf : '#' ∉ base) :
    normalizePath (base ++ '?' :: q) = normalizePath base
    ∧ normalizePath (base ++ '#' :: f) = normalizePath base
    ∧ normalizePath "/guide.html?x=1#section".data = normalizePath "/guide.html".data
    ∧ normalizePath "/".data = "/index.html".data := by
  refine ⟨?_, ?_, by decide, by decide⟩
  · have hu : unquote ('?' :: q) = '?' :: unquote q := unquote_cons_ne _ (by decide)
    simp only [normalizePath, ne_eq, unquote_no_pct_append _ hp, unquote_no_pct hp, hu]
    have h2 : (base ++ '?' :: unquote q).takeWhile (fun c => decide ¬(c = '?')) = base := by
      rw [takeWhile_all_append _ (all_ne_of_notMem hq), List.takeWhile_cons]
      simp
    rw [h2, takeWhile_all (all_ne_of_notMem hq), takeWhile_all (all_ne_of_notMem hf)]
  · have hu : unquote ('#' :: f) = '#' :: unquote f := unquote_cons_ne _ (by decide)
    simp only [normalizePath, ne_eq, unquote_no_pct_append _ hp, unquote_no_pct hp, hu]
    have h2 : (base ++ '#' :: unquote f).takeWhile (fun c => decide ¬(c = '?'))
        = base ++ ('#' :: unquote f).takeWhile (fun c => decide ¬(c = '?')) :=
      takeWhile_all_append _ (all_ne_of_notMem hq)
    rw [h2, List.takeWhile_cons]
    have hne : (decide ¬('#' = '?')) = true := by decide
    simp only [hne, if_true]
    have h3 : (base ++ '#' :: (unquote f).takeWhile (fun c => decide ¬(c = '?'))).takeWhile
        (fun c => decide ¬(c = '#')) = base := by
      rw [takeWhile_all_append _ (all_ne_of_notMem hf), List.takeWhile_cons]
      simp
    rw [h3, takeWhile_all (all_ne_of_notMem hq), takeWhile_all (all_ne_of_notMem hf)]

theorem normalize_query_fragment_witness :
    normalizePath ("/guide.html".data ++ '?' :: "x=1".data) = normalizePath "/guide.html".data
    ∧ normalizePath ("/guide.html".data ++ '#' :: "sec".data) = normalizePath "/guide.html".data :=
  ⟨(normalize_query_fragment "/guide.html".data "x=1".data "sec".data
      (by decide) (by decide) (by decide)).1,
   (normalize_query_fragment "/guide.html".data "x=1".data "sec".data
      (by decide) (by decide) (by decide)).2.1⟩

/-! ## The request handler (`do_GET` / `serve_markdown`)

The handler is embedded as a function over an explicit environment: the
renderer availability flag (`MARKDOWN_AVAILABLE`), the filesystem
existence test and file reader for the documentation root, the markdown
converter (`markdown.Markdown(...).convert`, which may raise), and the
static file store consulted by the inherited generic GET handler.  The
reader and the converter return `Except`, the error carrying the textual
message of the raised exception. -/

structure Env where
  markdownAvailable : Bool
  fileExists : List Char → Bool
  readFile : List Char → Except (List Char) (List Char)
  render : List Char → Except (List Char) (List Char)
  staticFile : List Char → Option (List Char)

/-- The response the handler sends for one request: a rendered markdown
page, a static file served by the generic handler, or an error status
with its message. -/
inductive Response where
  | rendered (body : List Char)
  | staticFile (body : List Char)
  | err (code : Nat) (msg : List Char)
deriving DecidableEq

/-- Fixed template text around the title slot and around the content
slot.  The literal CSS and sidebar markup of `HTML_TEMPLATE` is a fixed
asset with no logic (spec section 1 excludes it); these segments stand
for it while preserving the composition structure: the template is a
constant with one title slot in the head and one content slot in the
main region. -/
def tplHead : List Char := "<!DOCTYPE html><html><head><title>".data

def tplMid : List Char := " - Dashcam Documentation</title></head><body><main>".data

def tplTail : List Char := "</main></body></html>".data

/-- Template composition `HTML_TEMPLATE.format(title=..., content=...)`. -/
def composePage (title content : List Char) : List Char :=
  tplHead ++ title ++ tplMid ++ content ++ tplTail

/-- The content-region wrapper built by `serve_markdown` around the
processed fragment. -/
def contentWrap (html : List Char) : List Char :=
  "<div class=\"content\">".data ++ html ++ "</div>".data

/-- Leading slash removal performed by `serve_markdown` before joining
with the documentation root. -/
def stripLead : List Char → List Char
  | '/' :: t => t
  | p => p

/-- Suffix test used for the `.html` check of `do_GET`. -/
def endsWithSeq (suf s : List Char) : Bool := (dropLit suf.reverse s.reverse).isSome

/-- Translation of `serve_markdown`: `none` models a `False` return with
no response sent (the caller falls through to static serving), `some r`
models a `True` return after sending response `r`. -/
def serveMarkdown (env : Env) (path : List Char) : Option Response :=
  if env.markdownAvailable = false then
    some (.err 500 "Markdown rendering not available".data)
  else
    let p := stripLead path
    if env.fileExists p = false then none
    else
      match env.readFile p with
      | .error e => some (.err 500 ("Error rendering markdown: ".data ++ e))
      | .ok content =>
        match env.render content with
        | .error e => some (.err 500 ("Error rendering markdown: ".data ++ e))
        | .ok htmlFrag =>
          some (.rendered (composePage (deriveTitle content)
            (generateBreadcrumb p ++ contentWrap (processMermaidBlocks htmlFrag))))

/-- Modelled from the spec: the inherited generic static file handler
(`super().do_GET()`, standard library) delivers the file byte-exact or
sends a 404 when it does not exist. -/
def staticServe (env : Env) (p : List Char) : Response :=
  match env.staticFile p with
  | some body => .staticFile body
  | none => .err 404 "File not found".data

/-- Translation of `do_GET`: normalize the path; for an `.html` path
build the candidate `.md` path and let `serve_markdown` handle it,
falling through to static serving when it returns `False`; any other
path goes to static serving directly. -/
def doGET (env : Env) (rawPath : List Char) : Response :=
  let p := normalizePath rawPath
  if endsWithSeq ".html".data p = true then
    match serveMarkdown env (p.take (p.length - 5) ++ ".md".data) with
    | some r => r
    | none => staticServe env p
  else staticServe env p

/-- Replace the renderer component of an environment, all other
components unchanged; used to state that a code path never consults the
renderer. -/
def withRender (env : Env) (rnd : List Char → Except (List Char) (List Char)) : Env :=
  Env.mk env.markdownAvailable env.fileExists env.readFile rnd env.staticFile

/-- C8: with the markdown capability missing, every call of
`serve_markdown` short-circuits to the fixed 500 response — for every
path and every filesystem, so no file is consulted — while a request
whose normalized path is not an `.html` page is still served statically. -/
theorem renderer_unavailable (env : Env) (path raw : List Char)
    (hna : env.markdownAvailable = false) :
    serveMarkdown env path = some (.err 500 "Markdown rendering not available".data)
    ∧ (endsWithSeq ".html".data (normalizePath raw) = true →
        doGET env raw = .err 500 "Markdown rendering not available".data)
    ∧ (endsWithSeq ".html".data (normalizePath raw) = false →
        doGET env raw = staticServe env (normalizePath raw)) := by
  have hall : ∀ pp, serveMarkdown env pp
      = some (.err 500 "Markdown rendering not available".data) := by
    intro pp
    rw [serveMarkdown, if_pos hna]
  refine ⟨hall path, ?_, ?_⟩
  · intro hh
    rw [doGET]
    simp only [hh, if_true, hall]
  · intro hh
    rw [doGET]
    simp only [hh]
    simp

theorem renderer_unavailable_witness :
    serveMarkdown (Env.mk false (fun _ => true) (fun _ => Except.ok [])
        (fun _ => Except.ok []) (fun _ => none)) "/a.md".data
      = some (.err 500 "Markdown rendering not available".data)
    ∧ doGET (Env.mk false (fun _ => true) (fun _ => Except.ok [])
        (fun _ => Except.ok []) (fun _ => none)) "/a.html".data
      = .err 500 "Markdown rendering not available".data :=
  ⟨(renderer_unavailable _ "/a.md".data "/a.html".data rfl).1,
   (renderer_unavailable _ "/a.md".data "/a.html".data rfl).2.1 (by decide)⟩

/-- C7: once a render attempt starts (renderer available, candidate file
present), a failure while reading the file or converting its content is
terminal: the response is a 500 carrying the textual message of the
exception; and in every case the outcome is either such an error
response or one complete composed 200 page — never a partial page and
never a fallthrough. -/
theorem render_failure_terminal (env : Env) (path e content : List Char)
    (hav : env.markdownAvailable = true)
    (hex : env.fileExists (stripLead path) = true) :
    (env.readFile (stripLead path) = .error e →
      serveMarkdown env path = some (.err 500 ("Error rendering markdown: ".data ++ e)))
    ∧ (env.readFile (stripLead path) = .ok content → env.render content = .error e →
      serveMarkdown env path = some (.err 500 ("Error rendering markdown: ".data ++ e)))
    ∧ ((∃ e2, serveMarkdown env path
          = some (.err 500 ("Error rendering markdown: ".data ++ e2)))
       ∨ (∃ c h, env.readFile (stripLead path) = .ok c ∧ env.render c = .ok h ∧
            serveMarkdown env path = some (.rendered (composePage (deriveTitle c)
              (generateBreadcrumb (stripLead path)
                ++ contentWrap (processMermaidBlocks h)))))) := by
  have hnotfalse : ¬(env.markdownAvailable = false) := by rw [hav]; simp
  have hnotmiss : ¬(env.fileExists (stripLead path) = false) := by rw [hex]; simp
  refine ⟨?_, ?_, ?_⟩
  · intro hr
    simp only [serveMarkdown, if_neg hnotfalse, if_neg hnotmiss, hr]
  · intro hr hrr
    simp only [serveMarkdown, if_neg hnotfalse, if_neg hnotmiss, hr, hrr]
  · cases hr : env.readFile (stripLead path) with
    | error e2 =>
      left
      exact ⟨e2, by simp only [serveMarkdown, if_neg hnotfalse, if_neg hnotmiss, hr]⟩
    | ok c =>
      cases hrr : env.render c with
      | error e2 =>
        left
        exact ⟨e2, by simp only [serveMarkdown, if_neg hnotfalse, if_neg hnotmiss, hr, hrr]⟩
      | ok h =>
        right
        exact ⟨c, h, rfl, hrr,
          by simp only [serveMarkdown, if_neg hnotfalse, if_neg hnotmiss, hr, hrr]⟩

theorem render_failure_terminal_witness :
    serveMarkdown (Env.mk true (fun _ => true) (fun _ => Except.error "boom".data)
        (fun _ => Except.ok []) (fun _ => none)) "/x.md".data
      = some (.err 500 ("Error rendering markdown: ".data ++ "boom".data)) :=
  (render_failure_terminal (Env.mk true (fun _ => true)
      (fun _ => Except.error "boom".data) (fun _ => Except.ok []) (fun _ => none))
    "/x.md".data "boom".data [] rfl rfl).1 rfl

/-- C6: a request whose normalized path does not end in `.html`, or ends
in `.html` but whose candidate `.md` counterpart does not exist, falls
through to generic static serving; a missing static file then yields a
404; and on these paths the response is independent of the renderer, so
the render pipeline is never invoked. -/
theorem fallthrough_static (env : Env) (raw : List Char)
    (rnd : List Char → Except (List Char) (List Char)) :
    (endsWithSeq ".html".data (normalizePath raw) = false →
      doGET env raw = staticServe env (normalizePath raw))
    ∧ (endsWithSeq ".html".data (normalizePath raw) = true →
        env.markdownAvailable = true →
        env.fileExists (stripLead ((normalizePath raw).take ((normalizePath raw).length - 5)
            ++ ".md".data)) = false →
        doGET env raw = staticServe env (normalizePath raw))
    ∧ (env.staticFile (normalizePath raw) = none →
        staticServe env (normalizePath raw) = .err 404 "File not found".data)
    ∧ (endsWithSeq ".html".data (normalizePath raw) = false →
        doGET (withRender env rnd) raw = doGET env raw)
    ∧ (endsWithSeq ".html".data (normalizePath raw) = true →
        env.markdownAvailable = true →
        env.fileExists (stripLead ((normalizePath raw).take ((normalizePath raw).length - 5)
            ++ ".md".data)) = false →
        doGET (withRender env rnd) raw = doGET env raw) := by
  have hstat : ∀ rr, staticServe (withRender env rr) (normalizePath raw)
      = staticServe env (normalizePath raw) := by
    intro rr
    rw [staticServe, staticServe, withRender]
  have hmd : ∀ (e2 : Env), e2.markdownAvailable = true →
      e2.fileExists (stripLead ((normalizePath raw).take ((normalizePath raw).length - 5)
        ++ ".md".data)) = false →
      serveMarkdown e2 ((normalizePath raw).take ((normalizePath raw).length - 5)
        ++ ".md".data) = none := by
    intro e2 hav hex
    have hnotfalse : ¬(e2.markdownAvailable = false) := by rw [hav]; simp
    simp [serveMarkdown, if_neg hnotfalse, hex]
  have hdo : ∀ (e2 : Env), e2.markdownAvailable = true →
      e2.fileExists (stripLead ((normalizePath raw).take ((normalizePath raw).length - 5)
        ++ ".md".data)) = false →
      endsWithSeq ".html".data (normalizePath raw) = true →
      doGET e2 raw = staticServe e2 (normalizePath raw) := by
    intro e2 hav hex hh
    rw [doGET]
    simp only [hh, if_true, hmd e2 hav hex]
  refine ⟨?_, ?_, ?_, ?_, ?_⟩
  · intro hh
    rw [doGET]
    simp only [hh]
    simp
  · intro hh hav hex
    exact hdo env hav hex hh
  · intro hs
    rw [staticServe, hs]
  · intro hh
    rw [doGET, doGET]
    simp only [hh]
    simp [hstat]
  · intro hh hav hex
    rw [hdo env hav hex hh, hdo (withRender env rnd) (by rw [withRender]; exact hav)
        (by rw [withRender]; exact hex) hh, hstat]

theorem fallthrough_static_witness :
    doGET (Env.mk true (fun _ => false) (fun _ => Except.ok [])
        (fun _ => Except.ok []) (fun _ => none)) "/missing.html".data
      = Response.err 404 "File not found".data := by
  have h := fallthrough_static (Env.mk true (fun _ => false) (fun _ => Except.ok [])
      (fun _ => Except.ok []) (fun _ => none)) "/missing.html".data (fun _ => Except.ok [])
  rw [h.2.1 (by decide) rfl rfl]
  exact h.2.2.1 rfl

/-- C10: for an `.html` request whose candidate markdown source exists
and with the renderer available, `serve_markdown` sends a response on
every branch (it returns `True`), the router adopts that response
instead of falling through — in particular no static file is ever served
for such a request, even when rendering fails — and a `False` return
happens only when the candidate file is missing. -/
theorem serve_markdown_owns_request :
    (∀ (env : Env) (raw : List Char),
      endsWithSeq ".html".data (normalizePath raw) = true →
      env.markdownAvailable = true →
      env.fileExists (stripLead ((normalizePath raw).take ((normalizePath raw).length - 5)
          ++ ".md".data)) = true →
      ∃ r, serveMarkdown env ((normalizePath raw).take ((normalizePath raw).length - 5)
            ++ ".md".data) = some r
        ∧ doGET env raw = r
        ∧ ∀ b, r ≠ Response.staticFile b)
    ∧ (∀ (env : Env) (path : List Char),
        serveMarkdown env path = none →
        env.markdownAvailable = true ∧ env.fileExists (stripLead path) = false) := by
  constructor
  · intro env raw hh hav hex
    have hnotfalse : ¬(env.markdownAvailable = false) := by rw [hav]; simp
    have hnotmiss : ¬(env.fileExists (stripLead ((normalizePath raw).take
        ((normalizePath raw).length - 5) ++ ".md".data)) = false) := by rw [hex]; simp
    have hsome : ∃ r, serveMarkdown env ((normalizePath raw).take
        ((normalizePath raw).length - 5) ++ ".md".data) = some r
        ∧ ∀ b, r ≠ Response.staticFile b := by
      cases hr : env.readFile (stripLead ((normalizePath raw).take
          ((normalizePath raw).length - 5) ++ ".md".data)) with
      | error e =>
        refine ⟨.err 500 ("Error rendering markdown: ".data ++ e), ?_, ?_⟩
        · simp only [serveMarkdown, if_neg hnotfalse, if_neg hnotmiss, hr]
        · intro b hb; exact Response.noConfusion hb
      | ok c =>
        cases hrr : env.render c with
        | error e =>
          refine ⟨.err 500 ("Error rendering markdown: ".data ++ e), ?_, ?_⟩
          · simp only [serveMarkdown, if_neg hnotfalse, if_neg hnotmiss, hr, hrr]
          · intro b hb; exact Response.noConfusion hb
        | ok h =>
          refine ⟨.rendered (composePage (deriveTitle c)
              (generateBreadcrumb (stripLead ((normalizePath raw).take
                ((normalizePath raw).length - 5) ++ ".md".data))
                ++ contentWrap (processMermaidBlocks h))), ?_, ?_⟩
          · simp only [serveMarkdown, if_neg hnotfalse, if_neg hnotmiss, hr, hrr]
          · intro b hb; exact Response.noConfusion hb
    obtain ⟨r, hsm, hnotstat⟩ := hsome
    refine ⟨r, hsm, ?_, hnotstat⟩
    rw [doGET]
    simp only [hh, if_true, hsm]
  · intro env path hnone
    by_cases hav : env.markdownAvailable = false
    · rw [serveMarkdown, if_pos hav] at hnone
      cases hnone
    · have hav' : env.markdownAvailable = true := by
        cases hb : env.markdownAvailable
        · exact absurd hb hav
        · rfl
      refine ⟨hav', ?_⟩
      by_cases hex : env.fileExists (stripLead path) = false
      · exact hex
      · exfalso
        simp only [serveMarkdown, if_neg hav, if_neg hex] at hnone
        cases hr : env.readFile (stripLead path) with
        | error e => simp [hr] at hnone
        | ok c =>
          simp only [hr] at hnone
          cases hrr : env.render c with
          | error e => simp [hrr] at hnone
          | ok h => simp [hrr] at hnone

theorem serve_markdown_owns_request_witness :
    ∃ r, serveMarkdown (Env.mk true (fun _ => true)
          (fun _ => Except.error "disk".data) (fun _ => Except.ok [])
          (fun _ => some "static".data))
        (("/a.html".data).take (("/a.html".data).length - 5) ++ ".md".data) = some r
      ∧ doGET (Env.mk true (fun _ => true)
          (fun _ => Except.error "disk".data) (fun _ => Except.ok [])
          (fun _ => some "static".data)) "/a.html".data = r
      ∧ ∀ b, r ≠ Response.staticFile b := by
  have h := serve_markdown_owns_request.1 (Env.mk true (fun _ => true)
      (fun _ => Except.error "disk".data) (fun _ => Except.ok [])
      (fun _ => some "static".data)) "/a.html".data (by decide) rfl rfl
  have hn : normalizePath "/a.html".data = "/a.html".data := by decide
  rw [hn] at h
  exact h

/-- C9: the resolver performs no root-containment check.  The candidate
markdown path derived from the normalized request `/../secret.html`
contains a parent-directory segment, so joined to the documentation root
it denotes a file outside the root; whenever the filesystem reports that
file as existing, `serve_markdown` reads and renders it like any
ordinary source, and the router serves the rendered page — no branch
rejects the path. -/
theorem traversal_not_guarded (env : Env) (body htmlFrag : List Char)
    (hav : env.markdownAvailable = true)
    (hex : env.fileExists "../secret.md".data = true)
    (hrd : env.readFile "../secret.md".data = .ok body)
    (hrn : env.render body = .ok htmlFrag) :
    serveMarkdown env "/../secret.md".data
      = some (.rendered (composePage (deriveTitle body)
          (generateBreadcrumb "../secret.md".data
            ++ contentWrap (processMermaidBlocks htmlFrag))))
    ∧ doGET env "/../secret.html".data
      = .rendered (composePage (deriveTitle body)
          (generateBreadcrumb "../secret.md".data
            ++ contentWrap (processMermaidBlocks htmlFrag))) := by
  have hnotfalse : ¬(env.markdownAvailable = false) := by rw [hav]; simp
  have hs : stripLead "/../secret.md".data = "../secret.md".data := rfl
  have hnotmiss : ¬(env.fileExists (stripLead "/../secret.md".data) = false) := by
    rw [hs, hex]; simp
  have h1 : serveMarkdown env "/../secret.md".data
      = some (.rendered (composePage (deriveTitle body)
          (generateBreadcrumb "../secret.md".data
            ++ contentWrap (processMermaidBlocks htmlFrag)))) := by
    simp only [serveMarkdown, if_neg hnotfalse, if_neg hnotmiss, hs, hrd, hrn]
    simp [hex]
  refine ⟨h1, ?_⟩
  have hn : normalizePath "/../secret.html".data = "/../secret.html".data := by decide
  have hh : endsWithSeq ".html".data "/../secret.html".data = true := by decide
  have hmd : ("/../secret.html".data).take (("/../secret.html".data).length - 5)
      ++ ".md".data = "/../secret.md".data := by decide
  rw [doGET]
  simp only [hn, hh, if_true, hmd, h1]

theorem traversal_not_guarded_witness :
    serveMarkdown (Env.mk true (fun _ => true) (fun _ => Except.ok "# Secret".data)
        (fun _ => Except.ok "<h1>Secret</h1>".data) (fun _ => none)) "/../secret.md".data
      = some (.rendered (composePage (deriveTitle "# Secret".data)
          (generateBreadcrumb "../secret.md".data
            ++ contentWrap (processMermaidBlocks "<h1>Secret</h1>".data)))) :=
  (traversal_not_guarded (Env.mk true (fun _ => true)
      (fun _ => Except.ok "# Secret".data) (fun _ => Except.ok "<h1>Secret</h1>".data)
      (fun _ => none)) "# Secret".data "<h1>Secret</h1>".data rfl rfl rfl rfl).1
